import Mathlib

/-!
# Verification of the dual-buffer video playback app

Shallow embedding of the seamless dual-buffer playback logic of the
repository (the `handleGlobalTap` / `startExperience` engine, the simple
`next` variant, and the `useVideoStore` step-to-video store), together
with theorems settling the specification's claims about them.

The embedding follows the source: the engine state is the React state
`{ currentIndex, activePlayer }` plus the two player refs (modelled as
slots holding a clip index and a load phase) and the `isTransitioning`
ref (the transition lock).  Every command the code issues to a player
(`playAsync`, `unloadAsync`, `loadAsync`, `stopAsync`) is recorded in an
event trace; awaited calls additionally record their completion, so the
temporal claims about "completes before" are statements about trace
order.
-/

namespace Videoapp

/-- The two buffer players, `playerA` and `playerB` in the source. -/
inductive Player where
  | A
  | B
deriving DecidableEq, Repr

/-- The player that is not `p`; the standby role is always the other
player of the active one. -/
def Player.other : Player → Player
  | .A => .B
  | .B => .A

/-- Load phase of a player ref: a `loadAsync` that has been issued but
not completed leaves the slot `loading`; a completed load with
`shouldPlay:false` leaves it `ready`; `playAsync` makes it `playing`. -/
inductive Phase where
  | loading
  | ready
  | playing
deriving DecidableEq, Repr

/-- One buffer slot: the clip index it is bound to and its phase. -/
structure Slot where
  clip : Nat
  phase : Phase
deriving DecidableEq, Repr

/-- Commands issued to the players, as they appear in the source.
Awaited calls (`await playAsync`, `await unloadAsync`, `await
loadAsync`) also record a `...Done` completion event right after, so
trace order captures the await.  `stopCmd` is in the vocabulary because
`stopAsync` exists in the codebase (`VideoLayer`), but `handleGlobalTap`
never issues it. -/
inductive Ev where
  | playCmd (p : Player)
  | playDone (p : Player)
  | unloadCmd (p : Player)
  | unloadDone (p : Player)
  | loadCmd (p : Player) (clip : Nat)
  | loadDone (p : Player)
  | stopCmd (p : Player)
deriving DecidableEq, Repr

/-- Engine state: the React state of the playback screen.  `len` is
`steps.length` (fixed for a session), `locked` is the
`isTransitioning` ref. -/
structure Engine where
  len : Nat
  currentIndex : Nat
  activePlayer : Player
  slotA : Slot
  slotB : Slot
  locked : Bool
deriving DecidableEq, Repr

/-- The slot currently bound to player `p`. -/
def Engine.slot (e : Engine) : Player → Slot
  | .A => e.slotA
  | .B => e.slotB

/-- The slot of the active player. -/
def Engine.activeSlot (e : Engine) : Slot :=
  e.slot e.activePlayer

/-- The slot of the standby player (the other player). -/
def Engine.standbySlot (e : Engine) : Slot :=
  e.slot e.activePlayer.other

/-- Engine state right after a successful `startExperience` over a
sequence of `n` steps: player A holds clip 0 and is playing, player B
holds clip 1 preloaded (`shouldPlay:false`), active player is A, index
is 0, lock clear. -/
def initEngine (n : Nat) : Engine :=
  { len := n
    currentIndex := 0
    activePlayer := .A
    slotA := ⟨0, .playing⟩
    slotB := ⟨1, .ready⟩
    locked := false }

/-- `handleGlobalTap`.  If the transition lock is held the call returns
immediately (no command, no state change).  Otherwise it locks, computes
`nextIndex = (currentIndex + 1) % steps.length` and
`preloadIndex = (nextIndex + 1) % steps.length`, awaits `playAsync` on
the standby player, swaps `activePlayer`, awaits `unloadAsync` on the
old active player, issues (without awaiting) `loadAsync` of the preload
clip on it, and sets `currentIndex = nextIndex`.  Returns the new state
and the trace of player commands issued. -/
def advance (e : Engine) : Engine × List Ev :=
  if e.locked then (e, [])
  else
    let nextIndex := (e.currentIndex + 1) % e.len
    let preloadIndex := (nextIndex + 1) % e.len
    match e.activePlayer with
    | .A =>
        ({ e with
            locked := true
            activePlayer := .B
            slotB := { e.slotB with phase := .playing }
            slotA := ⟨preloadIndex, .loading⟩
            currentIndex := nextIndex },
         [.playCmd .B, .playDone .B, .unloadCmd .A, .unloadDone .A,
          .loadCmd .A preloadIndex])
    | .B =>
        ({ e with
            locked := true
            activePlayer := .A
            slotA := { e.slotA with phase := .playing }
            slotB := ⟨preloadIndex, .loading⟩
            currentIndex := nextIndex },
         [.playCmd .A, .playDone .A, .unloadCmd .B, .unloadDone .B,
          .loadCmd .B preloadIndex])

/-- The `setTimeout` callback releasing the transition lock after the
400 ms settle window. -/
def unlockEngine (e : Engine) : Engine :=
  { e with locked := false }

/-- Completion of the background `loadAsync` issued on player `p` (the
call is not awaited in `handleGlobalTap`; its completion arrives later
and turns the slot `ready`). -/
def finishLoad (e : Engine) (p : Player) : Engine :=
  match p with
  | .A =>
      if e.slotA.phase = .loading then
        { e with slotA := { e.slotA with phase := .ready } }
      else e
  | .B =>
      if e.slotB.phase = .loading then
        { e with slotB := { e.slotB with phase := .ready } }
      else e

/-- Reachable engine states after a successful `startExperience` of an
`n`-step sequence: the initial state, and closure under taps
(`advance`), lock timeouts, and background-load completions. -/
inductive Reach (n : Nat) : Engine → Prop where
  | init : Reach n (initEngine n)
  | tap {e : Engine} : Reach n e → Reach n (advance e).1
  | unlock {e : Engine} : Reach n e → Reach n (unlockEngine e)
  | load {e : Engine} (p : Player) : Reach n e → Reach n (finishLoad e p)

/-- One fully settled tap cycle: a tap, the settle-window timeout
releasing the lock, and the completion of both background loads.  This
is the state an `advance` leaves behind once everything it started has
finished. -/
def settledTap (e : Engine) : Engine :=
  finishLoad (finishLoad (unlockEngine (advance e).1) .A) .B

/-- A step of the sequence, `VideoStep { id, uri }` in the source:
`uri` is `string | null`. -/
def falsyUri : Option String → Bool
  | none => true
  | some s => s = ""

/-- Outcome of `startExperience`. -/
inductive InitOutcome where
  | incomplete
  | engineError
  | started
deriving DecidableEq, Repr

/-- `startExperience`.  The guard `steps.some(s => !s.uri)` aborts with
the "Steps Incomplete" alert before touching any player.  Otherwise
player A's `loadAsync` of clip 0 is awaited, then player B's of clip 1;
`okA`/`okB` say whether each load succeeds.  A failed await throws into
the `catch`, which surfaces the "Engine Error" alert and nothing else:
later loads are not issued, earlier successful loads are not undone.
Returns the outcome and the trace of player commands issued. -/
def startExperience (steps : List (Option String)) (okA okB : Bool) :
    InitOutcome × List Ev :=
  if steps.any falsyUri then (.incomplete, [])
  else if okA = false then (.engineError, [.loadCmd .A 0])
  else if okB = false then
    (.engineError, [.loadCmd .A 0, .loadDone .A, .loadCmd .B 1])
  else
    (.started, [.loadCmd .A 0, .loadDone .A, .loadCmd .B 1, .loadDone .B])

/-- `STEP_COUNT` from the source. -/
def STEP_COUNT : Nat := 5

/-- Reachable values of the `steps` React state array: it starts as
`STEP_COUNT` entries with `uri: null`, and `handleUpload` /
`loadSavedAssets` only overwrite the `uri` of an existing entry
(`newSteps[index].uri = ...`), never change the array's length. -/
inductive StepsReach : List (Option String) → Prop where
  | init : StepsReach (List.replicate STEP_COUNT none)
  | setUri {l : List (Option String)} (i : Nat) (u : String) :
      StepsReach l → StepsReach (l.set i (some u))

/-- `next` from the simple variant (`src/App.tsx`):
`setIndex(prev => (prev + 1) % uris.length)`. -/
def nextSimple (prev len : Nat) : Nat :=
  (prev + 1) % len

/-- A stored video of the `useVideoStore` store:
`VideoStep { id, stepNumber, uri, originalName }`. -/
structure StoredVideo where
  id : String
  stepNumber : Nat
  uri : String
  originalName : String
deriving DecidableEq, Repr

/-- The comparator `(a, b) => a.stepNumber - b.stepNumber` as an order:
`a` sorts no later than `b` iff `a.stepNumber ≤ b.stepNumber`. -/
def byStep (a b : StoredVideo) : Prop :=
  a.stepNumber ≤ b.stepNumber

instance : DecidableRel byStep := fun a b =>
  inferInstanceAs (Decidable (a.stepNumber ≤ b.stepNumber))

instance : IsTotal StoredVideo byStep :=
  ⟨fun a b => Nat.le_total a.stepNumber b.stepNumber⟩

instance : IsTrans StoredVideo byStep :=
  ⟨fun _ _ _ h h' => Nat.le_trans h h'⟩

/-- The list update performed by `addVideo`:
`videos.filter(v => v.stepNumber !== stepNumber).concat(newVideo)
.sort((a,b) => a.stepNumber - b.stepNumber)` (JavaScript sort is stable
and the comparator orders by `stepNumber`; a stable insertion sort by
`stepNumber` computes the same list). -/
def addVideo (videos : List StoredVideo) (v : StoredVideo) :
    List StoredVideo :=
  List.insertionSort byStep
    ((videos.filter fun w => w.stepNumber ≠ v.stepNumber) ++ [v])

/-- The list update performed by `removeVideo`:
`videos.filter(v => v.stepNumber !== stepNumber)`. -/
def removeVideo (videos : List StoredVideo) (stepNumber : Nat) :
    List StoredVideo :=
  videos.filter fun w => w.stepNumber ≠ stepNumber

/-- The store invariant: strictly ascending `stepNumber`s down the
list, which gives both sortedness and at most one entry per step. -/
def StoreInv (videos : List StoredVideo) : Prop :=
  videos.Pairwise fun a b => a.stepNumber < b.stepNumber

section Theorems

/-- Reducing modulo `n` before adding one commutes with adding one
first, for `n ≥ 2`. -/
theorem mod_add_one_mod {n : Nat} (hn : 2 ≤ n) (k : Nat) :
    (k % n + 1) % n = (k + 1) % n := by
  conv_rhs => rw [Nat.add_mod]
  rw [Nat.mod_eq_of_lt (show 1 < n by omega)]

/-- The engine-state invariant established by `startExperience` and
preserved by every reachable step. -/
theorem engineInv_of_reach {n : Nat} {e : Engine} (hn : 2 ≤ n)
    (hr : Reach n e) :
    e.len = n ∧ e.activeSlot.clip = e.currentIndex ∧
    e.standbySlot.clip = (e.currentIndex + 1) % e.len := by
  induction hr with
  | init =>
      refine ⟨rfl, rfl, ?_⟩
      show (1 : Nat) = (0 + 1) % n
      rw [Nat.zero_add, Nat.mod_eq_of_lt (by omega)]
  | @tap e' hr' ih =>
      obtain ⟨hlen, hact, hstd⟩ := ih
      by_cases hl : e'.locked
      · simp only [advance, hl, if_true]
        exact ⟨hlen, hact, hstd⟩
      · cases hA : e'.activePlayer with
        | A =>
            have hB : e'.slotB.clip = (e'.currentIndex + 1) % e'.len := by
              simpa [Engine.standbySlot, Engine.slot, hA, Player.other]
                using hstd
            refine ⟨?_, ?_, ?_⟩ <;>
              simp [advance, hl, hA, Engine.activeSlot, Engine.standbySlot,
                Engine.slot, Player.other, hlen, hB]
        | B =>
            have hA' : e'.slotA.clip = (e'.currentIndex + 1) % e'.len := by
              simpa [Engine.standbySlot, Engine.slot, hA, Player.other]
                using hstd
            refine ⟨?_, ?_, ?_⟩ <;>
              simp [advance, hl, hA, Engine.activeSlot, Engine.standbySlot,
                Engine.slot, Player.other, hlen, hA']
  | @unlock e' hr' ih =>
      simpa [unlockEngine, Engine.activeSlot, Engine.standbySlot,
        Engine.slot] using ih
  | @load e' p hr' ih =>
      obtain ⟨hlen, hact, hstd⟩ := ih
      cases p <;> cases hA : e'.activePlayer <;>
        simp_all [finishLoad, Engine.activeSlot, Engine.standbySlot,
          Engine.slot, Player.other] <;> split_ifs <;> simp_all

/-- C1: for every reachable engine state after a successful
`startExperience` over a sequence of at least two steps, the active
player differs from the standby player, the active slot's bound clip
index equals `currentIndex`, and the standby slot is bound (loaded or
still loading) to the clip at `(currentIndex + 1) % length`; this is
preserved by every `advance` (tap), lock timeout, and background-load
completion. -/
theorem c1_engine_invariant (n : Nat) (e : Engine) (hn : 2 ≤ n)
    (hr : Reach n e) :
    e.activePlayer.other ≠ e.activePlayer ∧
    e.activeSlot.clip = e.currentIndex ∧
    e.standbySlot.clip = (e.currentIndex + 1) % e.len := by
  obtain ⟨-, hact, hstd⟩ := engineInv_of_reach hn hr
  refine ⟨?_, hact, hstd⟩
  cases e.activePlayer <;> simp [Player.other]

/-- Witness for C1: the invariant at the concrete reachable state one
tap after initialization of the repository's 5-step sequence. -/
theorem c1_engine_invariant_witness :
    (2 ≤ 5) ∧
    ((advance (initEngine 5)).1.activePlayer.other ≠
        (advance (initEngine 5)).1.activePlayer ∧
      (advance (initEngine 5)).1.activeSlot.clip =
        (advance (initEngine 5)).1.currentIndex ∧
      (advance (initEngine 5)).1.standbySlot.clip =
        ((advance (initEngine 5)).1.currentIndex + 1) %
          (advance (initEngine 5)).1.len) :=
  ⟨by omega,
   c1_engine_invariant 5 (advance (initEngine 5)).1 (by omega)
     (Reach.tap Reach.init)⟩

/-- C2: an `advance` (tap) while the transition lock is held is a
no-op — identical state, no player command issued; consequently a
second tap fired inside the settle window after a first tap (so before
the `setTimeout` unlock) changes nothing, `currentIndex` advances by
exactly 1 over the two taps, and the active player swaps exactly
once. -/
theorem c2_locked_advance_noop (e e₀ : Engine) (hl : e.locked = true)
    (h₀ : e₀.locked = false) :
    advance e = (e, []) ∧
    advance (advance e₀).1 = ((advance e₀).1, []) ∧
    (advance (advance e₀).1).1.currentIndex =
      (e₀.currentIndex + 1) % e₀.len ∧
    (advance (advance e₀).1).1.activePlayer = e₀.activePlayer.other := by
  have noop : ∀ e' : Engine, e'.locked = true → advance e' = (e', []) := by
    intro e' h
    simp [advance, h]
  have hlock1 : (advance e₀).1.locked = true := by
    cases hA : e₀.activePlayer <;> simp [advance, h₀, hA]
  have hci : (advance e₀).1.currentIndex = (e₀.currentIndex + 1) % e₀.len := by
    cases hA : e₀.activePlayer <;> simp [advance, h₀, hA]
  have hap : (advance e₀).1.activePlayer = e₀.activePlayer.other := by
    cases hA : e₀.activePlayer <;> simp [advance, h₀, hA, Player.other]
  refine ⟨noop e hl, noop _ hlock1, ?_, ?_⟩
  · rw [noop _ hlock1]
    exact hci
  · rw [noop _ hlock1]
    exact hap

/-- Witness for C2: the double-tap scenario on the concrete 5-step
initial state, with the lock concretely held by the first tap. -/
theorem c2_locked_advance_noop_witness :
    ((advance (initEngine 5)).1.locked = true ∧ (initEngine 5).locked = false) ∧
    (advance (advance (initEngine 5)).1 = ((advance (initEngine 5)).1, []) ∧
      advance (advance (initEngine 5)).1 = ((advance (initEngine 5)).1, []) ∧
      (advance (advance (initEngine 5)).1).1.currentIndex =
        ((initEngine 5).currentIndex + 1) % (initEngine 5).len ∧
      (advance (advance (initEngine 5)).1).1.activePlayer =
        (initEngine 5).activePlayer.other) :=
  ⟨⟨by decide, by decide⟩,
   c2_locked_advance_noop (advance (initEngine 5)).1 (initEngine 5)
     (by decide) (by decide)⟩

/-- C3: within one effective `advance`, the `playAsync` on the standby
player (the new active player) is issued, and its await completes,
strictly before the `unloadAsync` that begins the reclaim of the old
active player; every reclaim in the trace is preceded by the play
command. -/
theorem c3_play_before_reclaim (e : Engine) (h : e.locked = false) :
    ∃ i j, i < j ∧
      (advance e).2.get? i = some (Ev.playCmd e.activePlayer.other) ∧
      (advance e).2.get? (i + 1) = some (Ev.playDone e.activePlayer.other) ∧
      (advance e).2.get? j = some (Ev.unloadCmd e.activePlayer) ∧
      ∀ k, (advance e).2.get? k = some (Ev.unloadCmd e.activePlayer) →
        i < k := by
  cases hA : e.activePlayer <;>
  · refine ⟨0, 2, by omega, ?_, ?_, ?_, ?_⟩ <;>
      simp [advance, h, hA, Player.other]
    intro k hk
    match k with
    | 0 => simp [advance, h, hA, Player.other] at hk
    | 1 => simp [advance, h, hA, Player.other] at hk
    | k + 2 => omega

/-- Witness for C3: the ordering on the first tap of the 5-step
session. -/
theorem c3_play_before_reclaim_witness :
    (initEngine 5).locked = false ∧
    (∃ i j, i < j ∧
      (advance (initEngine 5)).2.get? i =
        some (Ev.playCmd (initEngine 5).activePlayer.other) ∧
      (advance (initEngine 5)).2.get? (i + 1) =
        some (Ev.playDone (initEngine 5).activePlayer.other) ∧
      (advance (initEngine 5)).2.get? j =
        some (Ev.unloadCmd (initEngine 5).activePlayer) ∧
      ∀ k, (advance (initEngine 5)).2.get? k =
          some (Ev.unloadCmd (initEngine 5).activePlayer) →
        i < k) :=
  ⟨by decide, c3_play_before_reclaim (initEngine 5) (by decide)⟩

/-- C4 counterexample: the claim says `advance` verifies the standby
slot is `Ready` before commanding `play()`.  At the reachable state
where the settle timeout has fired but the first tap's background
preload has not completed, the standby slot is still `loading`, yet
the next tap still issues `playAsync` on it — and `handleGlobalTap`
contains no readiness check, stall signal, retry, or termination. -/
theorem c4_no_readiness_check_cex :
    Reach 5 (unlockEngine (advance (initEngine 5)).1) ∧
    (unlockEngine (advance (initEngine 5)).1).standbySlot.phase =
      Phase.loading ∧
    (unlockEngine (advance (initEngine 5)).1).locked = false ∧
    Ev.playCmd (unlockEngine (advance (initEngine 5)).1).activePlayer.other
      ∈ (advance (unlockEngine (advance (initEngine 5)).1)).2 :=
  ⟨Reach.unlock (Reach.tap Reach.init), by decide, by decide, by decide⟩

/-- C4 amended: `advance` commands `play()` on the standby player
unconditionally, without verifying its load state — the command trace
is identical whatever phases the two slots are in (so no
`PlaybackStallError`, retry, or transition to a terminated state
exists). -/
theorem c4_play_unconditional (e : Engine) (pA pB : Phase)
    (h : e.locked = false) :
    Ev.playCmd e.activePlayer.other ∈ (advance e).2 ∧
    (advance { e with slotA := ⟨e.slotA.clip, pA⟩,
                      slotB := ⟨e.slotB.clip, pB⟩ }).2 = (advance e).2 := by
  cases hA : e.activePlayer <;>
    simp [advance, h, hA, Player.other]

/-- Witness for C4 amended: the play command is issued even when both
slots are still `loading`. -/
theorem c4_play_unconditional_witness :
    (initEngine 5).locked = false ∧
    (Ev.playCmd (initEngine 5).activePlayer.other ∈
        (advance (initEngine 5)).2 ∧
      (advance { initEngine 5 with
                  slotA := ⟨(initEngine 5).slotA.clip, Phase.loading⟩,
                  slotB := ⟨(initEngine 5).slotB.clip, Phase.loading⟩ }).2 =
        (advance (initEngine 5)).2) :=
  ⟨by decide,
   c4_play_unconditional (initEngine 5) Phase.loading Phase.loading
     (by decide)⟩

/-- C5: if any index of the sequence has a null locator,
`startExperience` stops at the completeness guard: the outcome is the
"Steps Incomplete" failure and no player command whatsoever is issued
(no slot starts loading). -/
theorem c5_incomplete_sequence (steps : List (Option String)) (i : Nat)
    (okA okB : Bool) (h : steps.get? i = some none) :
    startExperience steps okA okB = (InitOutcome.incomplete, []) := by
  have hm : (none : Option String) ∈ steps := by
    exact List.get?_mem h
  have ha : steps.any falsyUri = true :=
    List.any_eq_true.mpr ⟨none, hm, rfl⟩
  simp [startExperience, ha]

/-- Witness for C5: scenario B, a 4-step sequence whose index 2 has a
null locator. -/
theorem c5_incomplete_sequence_witness :
    ([some "s0", some "s1", none, some "s3"] :
        List (Option String)).get? 2 = some none ∧
    startExperience [some "s0", some "s1", none, some "s3"] true true =
      (InitOutcome.incomplete, []) :=
  ⟨by decide,
   c5_incomplete_sequence [some "s0", some "s1", none, some "s3"] 2
     true true (by decide)⟩

/-- C6 counterexample: with a complete 5-step sequence, player A's
initial load succeeding (`loadDone A` is in the trace) and player B's
failing, `startExperience` surfaces the engine-error outcome, but the
claimed rollback does not happen: no `unloadAsync` is issued on either
player, so slot A is left loaded. -/
theorem c6_no_rollback_cex :
    (startExperience (List.replicate 5 (some "clip")) true false).1 =
      InitOutcome.engineError ∧
    Ev.loadDone Player.A ∈
      (startExperience (List.replicate 5 (some "clip")) true false).2 ∧
    Ev.unloadCmd Player.A ∉
      (startExperience (List.replicate 5 (some "clip")) true false).2 ∧
    Ev.unloadCmd Player.B ∉
      (startExperience (List.replicate 5 (some "clip")) true false).2 := by
  decide

/-- C6 amended: if the initial load of either player fails on a
complete sequence, the whole initialization fails with the engine
error, but there is no all-or-nothing rollback: no `unloadAsync` is
issued before the error is surfaced, so a slot whose load succeeded
stays loaded. -/
theorem c6_init_failure_no_rollback (steps : List (Option String))
    (okA okB : Bool) (hc : steps.any falsyUri = false)
    (hf : okA = false ∨ okB = false) :
    (startExperience steps okA okB).1 = InitOutcome.engineError ∧
    ∀ p, Ev.unloadCmd p ∉ (startExperience steps okA okB).2 := by
  rcases hf with hf | hf <;> subst hf
  · cases okB <;> simp [startExperience, hc]
  · cases okA <;> simp [startExperience, hc]

/-- Witness for C6 amended: the concrete complete 5-step sequence with
player B's load failing. -/
theorem c6_init_failure_no_rollback_witness :
    ((List.replicate 5 (some "clip") : List (Option String)).any falsyUri =
        false ∧ (true = false ∨ false = false)) ∧
    ((startExperience (List.replicate 5 (some "clip")) true false).1 =
        InitOutcome.engineError ∧
      ∀ p, Ev.unloadCmd p ∉
        (startExperience (List.replicate 5 (some "clip")) true false).2) :=
  ⟨⟨by decide, Or.inr rfl⟩,
   c6_init_failure_no_rollback (List.replicate 5 (some "clip")) true false
     (by decide) (Or.inr rfl)⟩

/-- C7 counterexample: the claim says the new standby player is
commanded `stop()` then `unload()` then `load(...)`.  On the first tap
of the 5-step session the old active player is reclaimed
(`unloadAsync` is issued on it), but no `stopAsync` command appears
anywhere in the trace. -/
theorem c7_no_stop_cex :
    (initEngine 5).locked = false ∧
    Ev.unloadCmd Player.A ∈ (advance (initEngine 5)).2 ∧
    Ev.stopCmd Player.A ∉ (advance (initEngine 5)).2 ∧
    Ev.stopCmd Player.B ∉ (advance (initEngine 5)).2 := by
  decide

/-- C7 amended: in every effective `advance`, the new standby player
(the player that was just active) is commanded `unloadAsync` — with no
preceding `stopAsync`, which `handleGlobalTap` never issues — and the
awaited unload completes before `loadAsync` of the clip at
`preloadIndex = ((currentIndex + 1) % length + 1) % length` is issued
on that same player. -/
theorem c7_reclaim_order (e : Engine) (h : e.locked = false) :
    ∃ i,
      (advance e).2.get? i = some (Ev.unloadCmd e.activePlayer) ∧
      (advance e).2.get? (i + 1) = some (Ev.unloadDone e.activePlayer) ∧
      (advance e).2.get? (i + 2) =
        some (Ev.loadCmd e.activePlayer
          (((e.currentIndex + 1) % e.len + 1) % e.len)) ∧
      ∀ p, Ev.stopCmd p ∉ (advance e).2 := by
  cases hA : e.activePlayer <;>
  · refine ⟨2, ?_, ?_, ?_, ?_⟩ <;>
      simp [advance, h, hA, Player.other]

/-- Witness for C7 amended: the reclaim ordering on the first tap of
the 5-step session. -/
theorem c7_reclaim_order_witness :
    (initEngine 5).locked = false ∧
    (∃ i,
      (advance (initEngine 5)).2.get? i =
        some (Ev.unloadCmd (initEngine 5).activePlayer) ∧
      (advance (initEngine 5)).2.get? (i + 1) =
        some (Ev.unloadDone (initEngine 5).activePlayer) ∧
      (advance (initEngine 5)).2.get? (i + 2) =
        some (Ev.loadCmd (initEngine 5).activePlayer
          ((((initEngine 5).currentIndex + 1) % (initEngine 5).len + 1) %
            (initEngine 5).len)) ∧
      ∀ p, Ev.stopCmd p ∉ (advance (initEngine 5)).2) :=
  ⟨by decide, c7_reclaim_order (initEngine 5) (by decide)⟩

/-- Closed form of the settled engine state after `k` effective taps of
an `n`-step session: index `k % n`, active player `p` playing clip
`k % n`, the other player holding clip `(k + 1) % n` preloaded. -/
def canonical (n k : Nat) (p : Player) : Engine :=
  match p with
  | .A =>
      { len := n, currentIndex := k % n, activePlayer := .A,
        slotA := ⟨k % n, .playing⟩, slotB := ⟨(k + 1) % n, .ready⟩,
        locked := false }
  | .B =>
      { len := n, currentIndex := k % n, activePlayer := .B,
        slotA := ⟨(k + 1) % n, .ready⟩, slotB := ⟨k % n, .playing⟩,
        locked := false }

/-- The player reached from `A` after `k` role swaps. -/
def flipCount (k : Nat) : Player :=
  if k % 2 = 0 then .A else .B

theorem initEngine_eq_canonical {n : Nat} (hn : 2 ≤ n) :
    initEngine n = canonical n 0 .A := by
  simp [initEngine, canonical, Nat.mod_eq_of_lt (show 0 < n by omega),
    Nat.mod_eq_of_lt (show 1 < n by omega)]

theorem settledTap_canonical {n : Nat} (hn : 2 ≤ n) (k : Nat)
    (p : Player) :
    settledTap (canonical n k p) = canonical n (k + 1) p.other := by
  cases p <;>
    simp [settledTap, canonical, advance, unlockEngine, finishLoad,
      Player.other, mod_add_one_mod hn]

theorem settledTap_iterate {n : Nat} (hn : 2 ≤ n) (k : Nat) :
    settledTap^[k] (initEngine n) = canonical n k (flipCount k) := by
  induction k with
  | zero =>
      simpa [flipCount] using initEngine_eq_canonical hn
  | succ k ih =>
      rw [Function.iterate_succ_apply', ih, settledTap_canonical hn]
      have : (flipCount k).other = flipCount (k + 1) := by
        by_cases h2 : k % 2 = 0
        · have h1 : (k + 1) % 2 = 1 := by omega
          simp [flipCount, h2, h1, Player.other]
        · have h1 : (k + 1) % 2 = 0 := by omega
          simp [flipCount, h2, h1, Player.other]
      rw [this]

/-- C8 counterexample: for the repository's 5-step sequence, running
`startExperience` and then 5 settled taps brings `currentIndex` back to
0, but does not restore the active/standby pairing: the session starts
with player A active and ends with player B active. -/
theorem c8_round_trip_cex :
    (settledTap^[5] (initEngine 5)).currentIndex = 0 ∧
    (settledTap^[5] (initEngine 5)).activePlayer ≠
      (initEngine 5).activePlayer := by
  decide

/-- C8 amended: after `startExperience` over an `n`-step sequence
(`n ≥ 2`) followed by `n` settled taps (each tap's settle timeout and
background load completing before the next), `currentIndex` returns to
0, the active slot again holds clip 0 playing and the standby slot
again holds clip 1 preloaded, but the physical A/B pairing is restored
if and only if `n` is even; for odd `n` (such as the repository's 5)
the roles of players A and B end up swapped. -/
theorem c8_round_trip (n : Nat) (hn : 2 ≤ n) :
    (settledTap^[n] (initEngine n)).currentIndex = 0 ∧
    (settledTap^[n] (initEngine n)).activeSlot = ⟨0, .playing⟩ ∧
    (settledTap^[n] (initEngine n)).standbySlot = ⟨1, .ready⟩ ∧
    ((settledTap^[n] (initEngine n)).activePlayer =
        (initEngine n).activePlayer ↔ n % 2 = 0) := by
  rw [settledTap_iterate hn]
  have hn0 : n % n = 0 := Nat.mod_self n
  have hn1 : (n + 1) % n = 1 := by
    rw [Nat.add_mod, hn0, Nat.zero_add, Nat.mod_mod_of_dvd, Nat.mod_eq_of_lt]
    · omega
    · exact dvd_rfl
  by_cases h2 : n % 2 = 0 <;>
    simp [canonical, flipCount, h2, Engine.activeSlot, Engine.standbySlot,
      Engine.slot, Player.other, initEngine, hn0, hn1]

/-- Witness for C8 amended: the 5-step sequence, where the pairing ends
up swapped. -/
theorem c8_round_trip_witness :
    (2 ≤ 5) ∧
    ((settledTap^[5] (initEngine 5)).currentIndex = 0 ∧
      (settledTap^[5] (initEngine 5)).activeSlot = ⟨0, .playing⟩ ∧
      (settledTap^[5] (initEngine 5)).standbySlot = ⟨1, .ready⟩ ∧
      ((settledTap^[5] (initEngine 5)).activePlayer =
          (initEngine 5).activePlayer ↔ 5 % 2 = 0)) :=
  ⟨by omega, c8_round_trip 5 (by omega)⟩

/-- Every reachable value of the `steps` array keeps `STEP_COUNT`
entries: uploads only overwrite the `uri` field of an existing entry. -/
theorem stepsReach_length {l : List (Option String)} (h : StepsReach l) :
    l.length = STEP_COUNT := by
  induction h with
  | init => simp
  | setUri i u _ ih => simpa using ih

/-- C9: the modulo computations of the next and preload indices never
divide by zero.  In the simple variant, `next` only runs in playback,
which is gated on `uris.length >= 2`; in the engine variant, the
`steps` array always has exactly `STEP_COUNT = 5` entries, so
`steps.length` is never zero and both `nextIndex` and `preloadIndex`
are valid indices. -/
theorem c9_no_div_by_zero (uLen prev : Nat) (hu : 2 ≤ uLen)
    (l : List (Option String)) (hl : StepsReach l) (j : Nat) :
    uLen ≠ 0 ∧ nextSimple prev uLen < uLen ∧
    l.length = STEP_COUNT ∧ l.length ≠ 0 ∧
    (j + 1) % l.length < l.length ∧
    ((j + 1) % l.length + 1) % l.length < l.length := by
  have hL := stepsReach_length hl
  have h5 : l.length = 5 := by simpa [STEP_COUNT] using hL
  refine ⟨by omega, Nat.mod_lt _ (by omega), hL, by omega, ?_, ?_⟩ <;>
    · rw [h5]
      exact Nat.mod_lt _ (by omega)

/-- Witness for C9: a 2-clip playback in the simple variant and the
initial 5-entry steps array in the engine variant. -/
theorem c9_no_div_by_zero_witness :
    (2 ≤ 2) ∧
    ((2 : Nat) ≠ 0 ∧ nextSimple 1 2 < 2 ∧
      (List.replicate STEP_COUNT (none : Option String)).length =
        STEP_COUNT ∧
      (List.replicate STEP_COUNT (none : Option String)).length ≠ 0 ∧
      (0 + 1) %
          (List.replicate STEP_COUNT (none : Option String)).length <
        (List.replicate STEP_COUNT (none : Option String)).length ∧
      ((0 + 1) %
            (List.replicate STEP_COUNT (none : Option String)).length +
          1) %
          (List.replicate STEP_COUNT (none : Option String)).length <
        (List.replicate STEP_COUNT (none : Option String)).length) :=
  ⟨by omega,
   c9_no_div_by_zero 2 1 (by omega) _ StepsReach.init 0⟩

/-- A store satisfying the invariant has pairwise distinct
`stepNumber`s. -/
theorem storeInv_key_ne {l : List StoredVideo} (h : StoreInv l) :
    l.Pairwise fun a b => a.stepNumber ≠ b.stepNumber :=
  h.imp fun hab => Nat.ne_of_lt hab

/-- The filter-concat list built inside `addVideo` has pairwise
distinct `stepNumber`s whenever the store invariant held. -/
theorem addVideo_pre_key_ne {l : List StoredVideo} (v : StoredVideo)
    (h : StoreInv l) :
    ((l.filter fun w => w.stepNumber ≠ v.stepNumber) ++ [v]).Pairwise
      fun a b => a.stepNumber ≠ b.stepNumber := by
  rw [List.pairwise_append]
  refine ⟨(storeInv_key_ne h).sublist (List.filter_sublist l),
    List.pairwise_singleton _ _, ?_⟩
  intro a ha b hb
  have hpa := List.of_mem_filter ha
  have hb' : b = v := by simpa using hb
  subst hb'
  simpa using hpa

/-- `addVideo` preserves the store invariant. -/
theorem storeInv_addVideo {l : List StoredVideo} (v : StoredVideo)
    (h : StoreInv l) : StoreInv (addVideo l v) := by
  have hsorted : List.Sorted byStep (addVideo l v) :=
    List.sorted_insertionSort byStep _
  have hperm :
      (addVideo l v).Perm
        ((l.filter fun w => w.stepNumber ≠ v.stepNumber) ++ [v]) :=
    List.perm_insertionSort byStep _
  have hne : (addVideo l v).Pairwise
      fun a b => a.stepNumber ≠ b.stepNumber :=
    (List.Perm.pairwise_iff (fun hab => Ne.symm hab) hperm).mpr
      (addVideo_pre_key_ne v h)
  exact (hsorted.and hne).imp fun hab =>
    Nat.lt_of_le_of_ne hab.1 hab.2

/-- `removeVideo` preserves the store invariant. -/
theorem storeInv_removeVideo {l : List StoredVideo} (k : Nat)
    (h : StoreInv l) : StoreInv (removeVideo l k) :=
  List.Pairwise.sublist (List.filter_sublist l) h

/-- After `addVideo`, exactly one stored entry has the new video's
`stepNumber`. -/
theorem addVideo_count_key (l : List StoredVideo) (v : StoredVideo) :
    (addVideo l v).countP (fun w => w.stepNumber == v.stepNumber) = 1 := by
  rw [addVideo, List.Perm.countP_eq _ (List.perm_insertionSort byStep _),
    List.countP_append]
  have h0 : (l.filter fun w => w.stepNumber ≠ v.stepNumber).countP
      (fun w => w.stepNumber == v.stepNumber) = 0 := by
    rw [List.countP_eq_zero]
    intro a ha
    have := List.of_mem_filter ha
    simp_all
  simp [h0, List.countP_cons]

/-- `addVideo` leaves the number of entries of every other step
unchanged. -/
theorem addVideo_count_other (l : List StoredVideo) (v : StoredVideo)
    (m : Nat) (hm : m ≠ v.stepNumber) :
    (addVideo l v).countP (fun w => w.stepNumber == m) =
      l.countP (fun w => w.stepNumber == m) := by
  rw [addVideo, List.Perm.countP_eq _ (List.perm_insertionSort byStep _),
    List.countP_append, List.countP_filter]
  have hfix : l.countP
      (fun a => (a.stepNumber == m) && decide (a.stepNumber ≠ v.stepNumber)) =
      l.countP (fun w => w.stepNumber == m) := by
    apply List.countP_congr
    intro a _
    by_cases h : a.stepNumber = m <;> simp [h, hm]
  have hv : ([v].countP fun w => w.stepNumber == m) = 0 := by
    simp [List.countP_cons, Ne.symm hm]
  omega

/-- C10: the video store invariant — at most one entry per
`stepNumber`, sorted in strictly ascending `stepNumber` order — is
preserved by both `addVideo` and `removeVideo`; `addVideo` on an
occupied `stepNumber` replaces the entry (exactly one entry for that
step afterwards) and keeps every other step's entry count unchanged. -/
theorem c10_store_invariant (l : List StoredVideo) (v : StoredVideo)
    (k : Nat) (hinv : StoreInv l) :
    StoreInv (addVideo l v) ∧ StoreInv (removeVideo l k) ∧
    (addVideo l v).countP (fun w => w.stepNumber == v.stepNumber) = 1 ∧
    ∀ m, m ≠ v.stepNumber →
      (addVideo l v).countP (fun w => w.stepNumber == m) =
        l.countP (fun w => w.stepNumber == m) :=
  ⟨storeInv_addVideo v hinv, storeInv_removeVideo k hinv,
   addVideo_count_key l v, fun m hm => addVideo_count_other l v m hm⟩

/-- Witness for C10: replacing the occupied step 2 in a two-entry
store. -/
theorem c10_store_invariant_witness :
    StoreInv [⟨"a", 1, "u1", "n1"⟩, ⟨"b", 2, "u2", "n2"⟩] ∧
    (StoreInv (addVideo [⟨"a", 1, "u1", "n1"⟩, ⟨"b", 2, "u2", "n2"⟩]
        ⟨"c", 2, "u3", "n3"⟩) ∧
      StoreInv (removeVideo [⟨"a", 1, "u1", "n1"⟩, ⟨"b", 2, "u2", "n2"⟩] 1) ∧
      (addVideo [⟨"a", 1, "u1", "n1"⟩, ⟨"b", 2, "u2", "n2"⟩]
          ⟨"c", 2, "u3", "n3"⟩).countP
          (fun w => w.stepNumber == (⟨"c", 2, "u3", "n3"⟩ :
            StoredVideo).stepNumber) = 1 ∧
      ∀ m, m ≠ (⟨"c", 2, "u3", "n3"⟩ : StoredVideo).stepNumber →
        (addVideo [⟨"a", 1, "u1", "n1"⟩, ⟨"b", 2, "u2", "n2"⟩]
            ⟨"c", 2, "u3", "n3"⟩).countP
            (fun w => w.stepNumber == m) =
          ([⟨"a", 1, "u1", "n1"⟩, ⟨"b", 2, "u2", "n2"⟩] :
              List StoredVideo).countP (fun w => w.stepNumber == m)) :=
  ⟨by constructor <;> simp,
   c10_store_invariant [⟨"a", 1, "u1", "n1"⟩, ⟨"b", 2, "u2", "n2"⟩]
     ⟨"c", 2, "u3", "n3"⟩ 1 (by constructor <;> simp)⟩

end Theorems

end Videoapp
